import Mathlib

/-!
Verification of the feedback-analysis pipeline against its design document.

The development shallowly embeds the five AWS Lambda functions of the
repository:

* `lambda1` (pagination / fetch): reads the stored continuation token,
  fetches a page of comments, stores the token returned by the source and
  sends the batch to the queue.
* `lambda2` (dedup ingestion): writes one row per comment into the raw
  comment table, keyed by a hash of the video id and the published
  timestamp, stamping the row with the ingestion time.
* `lambda3` (sentiment enrichment): calls the classifier, retrying on a
  throttling error, and rewrites enriched rows.
* `lambda4` (incremental aggregation): fetches rows newer than the stored
  checkpoint, folds them into the running score and writes the metadata
  row back unconditionally.

Modelling conventions:

* `Decimal` arithmetic is modelled by exact rationals (the source uses
  28-digit `Decimal` contexts; none of the verified properties depends on
  digits beyond that precision).
* ISO-8601 timestamp strings, which the source compares lexicographically,
  are modelled by naturals (lexicographic order on fixed-format ASCII
  timestamps is order-isomorphic to chronological order).
* The sha256 dedup hash is modelled by its preimage string: equal inputs
  give equal digests, and the development only ever proves equalities of
  dedup keys, never inequalities, so no collision assumption is needed.
* Python `round` on a `Decimal` rounds half to even; `roundHalfEven`
  below reproduces that.
-/

/-- Classifier magnitudes, as returned by Comprehend and stored under the
sentiment score attribute of a row.  The aggregation code only ever reads
the Positive and Negative components. -/
structure SentimentScore where
  positive : ℚ
  negative : ℚ
  neutral : ℚ
  mixed : ℚ
deriving DecidableEq

/-- One row of the raw comment table, as written by ingestion and read by
the aggregation lambda.  The sentiment score attribute is absent until
enrichment succeeds (the aggregation code defaults it to zero magnitudes
via a chain of dictionary defaults). -/
structure CommentItem where
  comment_text : String
  author : String
  published_at : String
  processed_at : ℕ
  sentiment_score : Option SentimentScore
deriving DecidableEq

/-- A raw comment from an SQS batch: every field is optional because the
ingestion code reads each with a dictionary default. -/
structure RawComment where
  text : Option String
  author : Option String
  published_at : Option String
deriving DecidableEq

/-- The metadata row of the sentiment score table for one video: the
running score, the comment count and the checkpoint timestamp. -/
structure Metadata where
  overall_score : ℤ
  comment_count : ℕ
  last_updated_at : ℕ
deriving DecidableEq

/-- The default checkpoint used when no metadata row exists
(the source uses the epoch timestamp string). -/
def epochTs : ℕ := 0

/-! ## Dedup ingestion (lambda2) -/

/-- The dedup key of a comment.  The source computes
sha256 of the string built from the video id and the published timestamp
(with default N/A); the key is modelled by that preimage string, since
sha256 maps equal strings to equal digests. -/
def dedupKey (video_id : String) (c : RawComment) : String :=
  video_id ++ "_" ++ c.published_at.getD "N/A"

/-- The row ingestion writes for one comment: defaults applied to the
text and author fields, the ingestion time stamped into processed_at, and
no sentiment score. -/
def storedItemOf (c : RawComment) (now : ℕ) : CommentItem :=
  { comment_text := c.text.getD "N/A"
    author := c.author.getD "Anonymous"
    published_at := c.published_at.getD "N/A"
    processed_at := now
    sentiment_score := none }

/-- The raw comment table, keyed by partition key (video id) and sort key
(dedup key).  An association list in insertion order. -/
def Store : Type := List ((String × String) × CommentItem)

instance : DecidableEq Store := by
  unfold Store
  infer_instance

/-- DynamoDB put semantics: overwrite the row with this key if present,
else append it. -/
def putItem (s : Store) (k : String × String) (v : CommentItem) : Store :=
  match s with
  | [] => [(k, v)]
  | (k', v') :: rest =>
      if k' = k then (k, v) :: rest else (k', v') :: putItem rest k v

/-- Ingest one batch for one video at ingestion time now: one put per
comment, in batch order. -/
def processBatch (s : Store) (video_id : String) (comments : List RawComment)
    (now : ℕ) : Store :=
  comments.foldl
    (fun st c => putItem st (video_id, dedupKey video_id c) (storedItemOf c now)) s

/-- The rows of the raw comment table belonging to one video (the
partition-key query the aggregation lambda issues). -/
def rowsFor (s : Store) (video_id : String) : List CommentItem :=
  (s.filter (fun kv => kv.1.1 = video_id)).map (fun kv => kv.2)

/-- One SQS record as the ingestion handler sees it: either its body
fails to parse or validate (missing video id, comments not a list, bad
JSON), or it carries a video id and a list of comments. -/
inductive SqsMessage where
  | malformed : SqsMessage
  | wellFormed (video_id : String) (comments : List RawComment) : SqsMessage

/-- The per-message processing of the ingestion handler: a malformed
message raises inside the try block, is caught, and yields False with no
writes; a well-formed message writes its comments and yields True. -/
def process_message (s : Store) (now : ℕ) : SqsMessage → Store × Bool
  | .malformed => (s, false)
  | .wellFormed vid cs => (processBatch s vid cs now, true)

/-- The ingestion handler: without a Records list the handler's own try
block raises a KeyError and returns 500; with one it processes every
record, ignoring per-record failures, and returns 200. -/
def lambda2_handler (recs : Option (List SqsMessage)) (s : Store) (now : ℕ) :
    Store × ℕ :=
  match recs with
  | none => (s, 500)
  | some records =>
      (records.foldl (fun st msg => (process_message st now msg).1) s, 200)

/-! ## Sentiment enrichment (lambda3) -/

/-- One outcome of a classifier call. -/
inductive ClassifierOutcome where
  | success (sentiment : String) (score : SentimentScore) : ClassifierOutcome
  | textTooLong : ClassifierOutcome
  | throttled : ClassifierOutcome
  | clientError : ClassifierOutcome
deriving DecidableEq

/-- The sentiment-analysis call of the enrichment lambda, driven by the
sequence of outcomes the classifier will return on successive calls.  A
size-limit or client error yields nothing; a throttling outcome sleeps
one second and calls again, consuming the next outcome. -/
def analyze_sentiment : List ClassifierOutcome → Option (String × SentimentScore)
  | [] => none
  | .success s sc :: _ => some (s, sc)
  | .textTooLong :: _ => none
  | .clientError :: _ => none
  | .throttled :: rest => analyze_sentiment rest

/-- How many classifier calls the enrichment code issues against a given
outcome sequence: one per throttling outcome plus one for the first
non-throttling outcome. -/
def classifier_calls : List ClassifierOutcome → ℕ
  | [] => 0
  | .throttled :: rest => 1 + classifier_calls rest
  | .success _ _ :: _ => 1
  | .textTooLong :: _ => 1
  | .clientError :: _ => 1

/-- The per-record processing of the enrichment lambda: on classifier
success the row is rewritten with the sentiment attached; on failure the
record yields nothing and the row is left exactly as ingested. -/
def process_record (outcomes : List ClassifierOutcome) (row : CommentItem) :
    Option CommentItem :=
  match analyze_sentiment outcomes with
  | some (_, sc) => some { row with sentiment_score := some sc }
  | none => none

/-! ## Incremental aggregation (lambda4) -/

/-- The weight the scoring code applies to the positive magnitude. -/
def positive_weight_factor : ℚ := 5 / 4

/-- The fixed boost added to a positive new average. -/
def boost_delta : ℚ := 1 / 5

/-- The positive magnitude of a row, defaulting to zero when the row has
no sentiment score. -/
def scoreP (c : CommentItem) : ℚ :=
  match c.sentiment_score with
  | some s => s.positive
  | none => 0

/-- The negative magnitude of a row, defaulting to zero when the row has
no sentiment score. -/
def scoreN (c : CommentItem) : ℚ :=
  match c.sentiment_score with
  | some s => s.negative
  | none => 0

/-- The normalized sentiment of one row: the positive magnitude is
weighted by 1.25 before the signed ratio is taken; zero when the weighted
total is not positive. -/
def itemNorm (c : CommentItem) : ℚ :=
  let wp := positive_weight_factor * scoreP c
  let wt := wp + scoreN c
  if 0 < wt then (wp - scoreN c) / wt else 0

/-- The average normalized sentiment of the new rows, zero when there are
none. -/
def new_avg (cs : List CommentItem) : ℚ :=
  if 0 < cs.length then (cs.map itemNorm).sum / (cs.length : ℚ) else 0

/-- The existing overall score converted to the normalized scale, or zero
when there is no history. -/
def normalized_existing (existing_score : ℚ) (existing_count : ℕ) : ℚ :=
  if 0 < existing_count then existing_score / 50 - 1 else 0

/-- The new average after the positive boost: a positive average gains
0.2, capped at one; a non-positive average is untouched. -/
def new_avg_adjusted (a : ℚ) : ℚ :=
  if 0 < a then min (a + boost_delta) 1 else a

/-- The count-weighted combination of the existing normalized score and
the adjusted new average (no prior weight is involved). -/
def combinedOf (ne adj : ℚ) (existing_count new_count : ℕ) : ℚ :=
  if 0 < existing_count + new_count then
    (ne * existing_count + adj * new_count) / ((existing_count : ℚ) + new_count)
  else adj

/-- Round half to even, as Python's round does on a Decimal. -/
def roundHalfEven (q : ℚ) : ℤ :=
  let f := ⌊q⌋
  let r := q - (f : ℚ)
  if r < 1 / 2 then f
  else if 1 / 2 < r then f + 1
  else if f % 2 = 0 then f else f + 1

/-- The scoring function of the aggregation lambda: returns the updated
overall score and the updated comment count.  When the new average is
positive the combined value is floored at the existing normalized score
before being mapped back to the 0..100 scale. -/
def calculate_overall_score (existing_score : ℚ) (existing_count : ℕ)
    (new_comments : List CommentItem) : ℤ × ℕ :=
  let a := new_avg new_comments
  let ne := normalized_existing existing_score existing_count
  let adj := new_avg_adjusted a
  let comb := combinedOf ne adj existing_count new_comments.length
  let ov := if 0 < a then max comb ne else comb
  (roundHalfEven ((ov + 1) / 2 * 100), existing_count + new_comments.length)

/-- The filtered fetch of the aggregation lambda: the rows of the video
whose processing timestamp is strictly greater than the checkpoint. -/
def fetch_sentiment_scores (items : List CommentItem) (last : ℕ) :
    List CommentItem :=
  items.filter (fun c => last < c.processed_at)

/-- The existing score, count and checkpoint the handler derives from the
metadata row, with the initialization used when no row exists. -/
def metaFields (m : Option Metadata) : ℚ × ℕ × ℕ :=
  match m with
  | some md => ((md.overall_score : ℚ), md.comment_count, md.last_updated_at)
  | none => (0, 0, epochTs)

/-- The maximum processing timestamp of the fetched rows (the handler
only evaluates it on a non-empty fetch; the default totalizes it). -/
def latest_timestamp (cs : List CommentItem) (dflt : ℕ) : ℕ :=
  match cs with
  | [] => dflt
  | c :: rest => (rest.map (fun x => x.processed_at)).foldl max c.processed_at

/-- What one aggregation invocation writes back, if anything: none when
the filtered fetch is empty (the handler returns before writing), and
otherwise the metadata row it puts. -/
def aggregatePut (items : List CommentItem) (m : Option Metadata) :
    Option Metadata :=
  let es := (metaFields m).1
  let ec := (metaFields m).2.1
  let last := (metaFields m).2.2
  let newComments := fetch_sentiment_scores items last
  if newComments.isEmpty then none
  else
    let r := calculate_overall_score es ec newComments
    some ⟨r.1, r.2, latest_timestamp newComments last⟩

/-- The state of the metadata row after one aggregation invocation over
the given visible rows. -/
def aggregateStep (items : List CommentItem) (m : Option Metadata) :
    Option Metadata :=
  match aggregatePut items m with
  | none => m
  | some md => some md

/-- The comment count recorded for a video (zero when no row exists). -/
def aggCount (m : Option Metadata) : ℕ :=
  match m with
  | some md => md.comment_count
  | none => 0

/-- The checkpoint recorded for a video (epoch when no row exists). -/
def lastOf (m : Option Metadata) : ℕ :=
  match m with
  | some md => md.last_updated_at
  | none => epochTs

/-- Rows whose magnitudes, when present, lie in the unit interval — the
shape of every row the classifier can produce. -/
def validItem (c : CommentItem) : Prop :=
  match c.sentiment_score with
  | none => True
  | some s => 0 ≤ s.positive ∧ s.positive ≤ 1 ∧ 0 ≤ s.negative ∧ s.negative ≤ 1

/-- The metadata states reachable for one video: no row at all, then any
sequence of aggregation invocations over rows with classifier-shaped
magnitudes. -/
inductive Reachable : Option Metadata → Prop
  | init : Reachable none
  | step (items : List CommentItem) (m : Option Metadata)
      (hv : ∀ c ∈ items, validItem c) (hm : Reachable m) :
      Reachable (aggregateStep items m)

/-! ## The write-back race (lambda4 under concurrent triggers) -/

/-- The global state of two concurrent aggregation invocations for the
same video: the stored metadata row and each run's snapshot of it (none
until that run has read). -/
structure ConcState where
  db : Option Metadata
  snap1 : Option (Option Metadata)
  snap2 : Option (Option Metadata)
deriving DecidableEq

/-- The atomic events of the two runs: each reads the metadata row once
and writes it once. -/
inductive Ev where
  | read1 : Ev
  | write1 : Ev
  | read2 : Ev
  | write2 : Ev

/-- Event semantics.  A read snapshots the current row.  A write folds
the run's fetched rows against its own snapshot and, when the fold
produces a row, puts it unconditionally — the source's put has no
condition expression, so it overwrites whatever is stored. -/
def concStep (items1 items2 : List CommentItem) (st : ConcState) : Ev → ConcState
  | .read1 => { st with snap1 := some st.db }
  | .write1 =>
      match st.snap1 with
      | none => st
      | some snap =>
          match aggregatePut items1 snap with
          | none => st
          | some md => { st with db := some md }
  | .read2 => { st with snap2 := some st.db }
  | .write2 =>
      match st.snap2 with
      | none => st
      | some snap =>
          match aggregatePut items2 snap with
          | none => st
          | some md => { st with db := some md }

/-- Run a schedule of events from an initial state. -/
def concExec (items1 items2 : List CommentItem) (evs : List Ev)
    (st : ConcState) : ConcState :=
  evs.foldl (concStep items1 items2) st

/-! ## Pagination checkpoint (lambda1) -/

/-- The page token the fetch handler uses: the one provided in the
request if any, else the stored one. -/
def choose_page_token (provided stored : Option String) : Option String :=
  match provided with
  | some t => some t
  | none => stored

/-- The fetch handler, as far as the pagination state is concerned.
fetch maps the chosen token to the page the comment source returns
(none models the fetch call raising).  The handler stores the token
returned by the source before sending the batch to the queue; sendOk
tells whether that send succeeds.  Result: the stored token after the
invocation, and the status code returned. -/
def lambda1_handler (stored provided : Option String)
    (fetch : Option String → Option (List RawComment × Option String))
    (sendOk : Bool) : Option String × ℕ :=
  match fetch (choose_page_token provided stored) with
  | none => (stored, 500)
  | some (_, nextTok) =>
      if sendOk then (nextTok, 200) else (nextTok, 500)

/-! ## Concrete inputs used by the individual claims -/

/-- The Scenario C item: one maximally positive new comment. -/
def c1item : CommentItem :=
  { comment_text := "Amazing video"
    author := "alice"
    published_at := "2024-01-01T00:00:00Z"
    processed_at := 11
    sentiment_score := some ⟨1, 0, 0, 0⟩ }

/-- The Scenario C aggregate: score 70, twenty comments folded, and a
checkpoint below the new item's processing time. -/
def c1prior : Metadata := ⟨70, 20, 10⟩

/-- The prior aggregate of the write-back race. -/
def c2prior : Metadata := ⟨70, 20, 10⟩

/-- The single new row fetched by the first concurrent run. -/
def c2item1 : CommentItem := ⟨"first", "erin", "2024-01-03T00:00:00Z", 11, none⟩

/-- The single new row fetched by the second concurrent run, disjoint
from the first. -/
def c2item2 : CommentItem := ⟨"second", "frank", "2024-01-03T00:01:00Z", 12, none⟩

/-- The batch re-submitted twice in the idempotence counterexample. -/
def c4comment : RawComment :=
  ⟨some "Great video!", some "bob", some "2024-01-01T00:00:00Z"⟩

/-- The store after ingesting the batch once, at time 1. -/
def c4s1 : Store := processBatch [] "vid" [c4comment] 1

/-- The store after re-ingesting the identical batch, at time 2. -/
def c4s2 : Store := processBatch c4s1 "vid" [c4comment] 2

/-- An item used to reach a concrete aggregate state. -/
def c6item : CommentItem := ⟨"nice", "dave", "2024-01-05T00:00:00Z", 3, none⟩

/-- A row whose classification failed permanently: ingestion stamped its
processing time, enrichment left it without a sentiment score. -/
def c7item : CommentItem :=
  ⟨"an extremely long comment", "carol", "2024-01-02T00:00:00Z", 11, none⟩

/-- The prior aggregate in the permanently-failed-item counterexample. -/
def c7prior : Metadata := ⟨70, 20, 10⟩

/-- A successful classifier outcome. -/
def c8score : SentimentScore := ⟨9 / 10, 1 / 10, 0, 0⟩

/-- Two distinct comments on the same video sharing a published
timestamp but differing in text. -/
def c9c1 : RawComment := ⟨some "great video", some "alice", some "2024-01-04T00:00:00Z"⟩

/-- The second of the two colliding comments. -/
def c9c2 : RawComment := ⟨some "terrible video", some "bob", some "2024-01-04T00:00:00Z"⟩

/-! ## Helper lemmas -/

lemma roundHalfEven_eq_of (q : ℚ) (n : ℤ) (h1 : (n : ℚ) ≤ q)
    (h2 : q - n < 1 / 2) : roundHalfEven q = n := by
  have hf : ⌊q⌋ = n := by
    rw [Int.floor_eq_iff]
    exact ⟨h1, by linarith⟩
  simp only [roundHalfEven, hf]
  rw [if_pos (by linarith)]

lemma roundHalfEven_nonneg (q : ℚ) (h : 0 ≤ q) : 0 ≤ roundHalfEven q := by
  have h0 : 0 ≤ ⌊q⌋ := Int.floor_nonneg.mpr h
  simp only [roundHalfEven]
  split_ifs <;> omega

lemma roundHalfEven_le (q : ℚ) (B : ℤ) (h : q ≤ B) : roundHalfEven q ≤ B := by
  have hfB : ⌊q⌋ ≤ B := by
    have := Int.floor_le_floor h
    rwa [Int.floor_intCast] at this
  have hfq : (⌊q⌋ : ℚ) ≤ q := Int.floor_le q
  simp only [roundHalfEven]
  split_ifs with h1 h2 h3
  · exact hfB
  · -- the fractional part exceeds one half, so the floor is strictly below B
    have hlt : (⌊q⌋ : ℚ) < q := by linarith
    have : (⌊q⌋ : ℚ) < (B : ℚ) := lt_of_lt_of_le hlt h
    have : ⌊q⌋ < B := by exact_mod_cast this
    omega
  · exact hfB
  · have hge : (1 : ℚ) / 2 ≤ q - ⌊q⌋ := le_of_not_lt h1
    have hlt : (⌊q⌋ : ℚ) < q := by linarith
    have : (⌊q⌋ : ℚ) < (B : ℚ) := lt_of_lt_of_le hlt h
    have : ⌊q⌋ < B := by exact_mod_cast this
    omega

lemma itemNorm_of_none (c : CommentItem) (h : c.sentiment_score = none) :
    itemNorm c = 0 := by
  simp [itemNorm, scoreP, scoreN, h, positive_weight_factor]

lemma itemNorm_bounds (c : CommentItem) (h : validItem c) :
    -1 ≤ itemNorm c ∧ itemNorm c ≤ 1 := by
  cases hs : c.sentiment_score with
  | none => rw [itemNorm_of_none c hs]; norm_num
  | some s =>
      simp only [validItem, hs] at h
      obtain ⟨hp0, hp1, hn0, hn1⟩ := h
      simp only [itemNorm, scoreP, scoreN, hs, positive_weight_factor]
      set wp := (5 : ℚ) / 4 * s.positive with hwp
      have hwp0 : 0 ≤ wp := by positivity
      split_ifs with hwt
      · constructor
        · rw [le_div_iff₀ hwt]
          linarith
        · rw [div_le_one hwt]
          linarith
      · norm_num

lemma new_avg_bounds (cs : List CommentItem) (h : ∀ c ∈ cs, validItem c) :
    -1 ≤ new_avg cs ∧ new_avg cs ≤ 1 := by
  simp only [new_avg]
  split_ifs with hl
  · have hlen : (0 : ℚ) < cs.length := by exact_mod_cast hl
    have hub : (cs.map itemNorm).sum ≤ (cs.map itemNorm).length • (1 : ℚ) := by
      apply List.sum_le_card_nsmul
      intro x hx
      obtain ⟨c, hc, rfl⟩ := List.mem_map.mp hx
      exact (itemNorm_bounds c (h c hc)).2
    have hlb : (cs.map itemNorm).length • (-1 : ℚ) ≤ (cs.map itemNorm).sum := by
      apply List.card_nsmul_le_sum
      intro x hx
      obtain ⟨c, hc, rfl⟩ := List.mem_map.mp hx
      exact (itemNorm_bounds c (h c hc)).1
    rw [List.length_map, nsmul_eq_mul, mul_one] at hub
    rw [List.length_map, nsmul_eq_mul, mul_neg_one] at hlb
    constructor
    · rw [le_div_iff₀ hlen]
      linarith
    · rw [div_le_one hlen]
      linarith
  · norm_num

lemma new_avg_adjusted_bounds (a : ℚ) (h : -1 ≤ a ∧ a ≤ 1) :
    -1 ≤ new_avg_adjusted a ∧ new_avg_adjusted a ≤ 1 := by
  simp only [new_avg_adjusted, boost_delta]
  split_ifs with ha
  · exact ⟨le_min (by linarith) (by norm_num), min_le_right _ _⟩
  · exact h

lemma normalized_existing_bounds (es : ℚ) (ec : ℕ)
    (h : 0 < ec → 0 ≤ es ∧ es ≤ 100) :
    -1 ≤ normalized_existing es ec ∧ normalized_existing es ec ≤ 1 := by
  simp only [normalized_existing]
  split_ifs with hec
  · obtain ⟨h0, h100⟩ := h hec
    constructor
    · have : 0 ≤ es / 50 := by positivity
      linarith
    · have : es / 50 ≤ 2 := by
        rw [div_le_iff₀ (by norm_num : (0:ℚ) < 50)]
        linarith
      linarith
  · norm_num

lemma combinedOf_bounds (ne adj : ℚ) (ec nc : ℕ)
    (hne : -1 ≤ ne ∧ ne ≤ 1) (hadj : -1 ≤ adj ∧ adj ≤ 1) :
    -1 ≤ combinedOf ne adj ec nc ∧ combinedOf ne adj ec nc ≤ 1 := by
  simp only [combinedOf]
  split_ifs with hpos
  · have hec : (0 : ℚ) ≤ ec := by positivity
    have hnc : (0 : ℚ) ≤ nc := by positivity
    have hden : (0 : ℚ) < (ec : ℚ) + nc := by
      have : (0 : ℚ) < ((ec + nc : ℕ) : ℚ) := by exact_mod_cast hpos
      push_cast at this
      linarith
    have h1 : ne * ec ≤ 1 * ec := mul_le_mul_of_nonneg_right hne.2 hec
    have h2 : adj * nc ≤ 1 * nc := mul_le_mul_of_nonneg_right hadj.2 hnc
    have h3 : (-1) * ec ≤ ne * ec := mul_le_mul_of_nonneg_right hne.1 hec
    have h4 : (-1) * nc ≤ adj * nc := mul_le_mul_of_nonneg_right hadj.1 hnc
    constructor
    · rw [le_div_iff₀ hden]
      linarith
    · rw [div_le_one hden]
      linarith
  · exact hadj

lemma calc_score_bounds (es : ℚ) (ec : ℕ) (cs : List CommentItem)
    (hE : 0 < ec → 0 ≤ es ∧ es ≤ 100) (hcs : ∀ c ∈ cs, validItem c) :
    0 ≤ (calculate_overall_score es ec cs).1 ∧
      (calculate_overall_score es ec cs).1 ≤ 100 := by
  have ha := new_avg_bounds cs hcs
  have hne := normalized_existing_bounds es ec hE
  have hadj := new_avg_adjusted_bounds _ ha
  have hcomb := combinedOf_bounds _ _ ec cs.length hne hadj
  simp only [calculate_overall_score]
  set a := new_avg cs with h_a
  set ne := normalized_existing es ec with h_ne
  set comb := combinedOf ne (new_avg_adjusted a) ec cs.length with h_comb
  have hov : -1 ≤ (if 0 < a then max comb ne else comb) ∧
      (if 0 < a then max comb ne else comb) ≤ 1 := by
    split_ifs
    · exact ⟨le_trans hcomb.1 (le_max_left _ _), max_le hcomb.2 hne.2⟩
    · exact hcomb
  set ov := if 0 < a then max comb ne else comb with h_ov
  have heq : (ov + 1) / 2 * 100 = 50 * (ov + 1) := by ring
  constructor
  · apply roundHalfEven_nonneg
    rw [heq]
    linarith [hov.1]
  · apply roundHalfEven_le
    rw [heq]
    push_cast
    linarith [hov.2]

lemma metaFields_count (m : Option Metadata) : (metaFields m).2.1 = aggCount m := by
  cases m <;> rfl

lemma aggregateStep_of_empty (items : List CommentItem) (m : Option Metadata)
    (h : (fetch_sentiment_scores items (metaFields m).2.2).isEmpty) :
    aggregateStep items m = m := by
  simp only [aggregateStep, aggregatePut, h, if_pos]

lemma aggregateStep_of_nonempty (items : List CommentItem) (m : Option Metadata)
    (h : ¬ (fetch_sentiment_scores items (metaFields m).2.2).isEmpty) :
    aggregateStep items m = some
      ⟨(calculate_overall_score (metaFields m).1 (metaFields m).2.1
          (fetch_sentiment_scores items (metaFields m).2.2)).1,
        (calculate_overall_score (metaFields m).1 (metaFields m).2.1
          (fetch_sentiment_scores items (metaFields m).2.2)).2,
        latest_timestamp (fetch_sentiment_scores items (metaFields m).2.2)
          (metaFields m).2.2⟩ := by
  simp only [aggregateStep, aggregatePut, h]
  rfl

lemma calc_count (es : ℚ) (ec : ℕ) (cs : List CommentItem) :
    (calculate_overall_score es ec cs).2 = ec + cs.length := rfl

lemma aggCount_mono (items : List CommentItem) (m : Option Metadata) :
    aggCount m ≤ aggCount (aggregateStep items m) := by
  by_cases h : (fetch_sentiment_scores items (metaFields m).2.2).isEmpty
  · rw [aggregateStep_of_empty items m h]
  · rw [aggregateStep_of_nonempty items m h]
    simp only [aggCount, calc_count, metaFields_count]
    exact Nat.le_add_right _ _

lemma reachable_score_bounds (m : Option Metadata) (h : Reachable m) :
    ∀ md, m = some md → 0 ≤ md.overall_score ∧ md.overall_score ≤ 100 := by
  induction h with
  | init => exact fun md hmd => Option.noConfusion hmd
  | step items m hv hm ih =>
      intro md hmd
      by_cases hemp : (fetch_sentiment_scores items (metaFields m).2.2).isEmpty
      · rw [aggregateStep_of_empty items m hemp] at hmd
        exact ih md hmd
      · rw [aggregateStep_of_nonempty items m hemp] at hmd
        obtain rfl := (Option.some.injEq _ _).mp hmd
        have hE : 0 < (metaFields m).2.1 →
            0 ≤ (metaFields m).1 ∧ (metaFields m).1 ≤ 100 := by
          cases m with
          | none => intro hc; exact absurd hc (by simp [metaFields, epochTs])
          | some md₀ =>
              intro _
              obtain ⟨h0, h100⟩ := ih md₀ rfl
              simp only [metaFields]
              exact ⟨by exact_mod_cast h0, by exact_mod_cast h100⟩
        have hcs : ∀ c ∈ fetch_sentiment_scores items (metaFields m).2.2,
            validItem c := by
          intro c hc
          exact hv c (List.mem_of_mem_filter hc)
        exact calc_score_bounds _ _ _ hE hcs

/-- C6: for every reachable state of a video's aggregate (no row, then
any sequence of aggregation invocations over rows whose magnitudes lie in
the unit interval), the stored overall score lies between 0 and 100, and
the comment count (a natural, hence never negative) does not decrease
across any further invocation. -/
theorem c6_reachable_bounds (m : Option Metadata) (h : Reachable m) :
    (∀ md, m = some md → 0 ≤ md.overall_score ∧ md.overall_score ≤ 100) ∧
    ∀ items, aggCount m ≤ aggCount (aggregateStep items m) :=
  ⟨reachable_score_bounds m h, fun items => aggCount_mono items m⟩

theorem c6_reachable_bounds_witness :
    (∀ md, aggregateStep [c6item] none = some md →
        0 ≤ md.overall_score ∧ md.overall_score ≤ 100) ∧
    ∀ items, aggCount (aggregateStep [c6item] none) ≤
      aggCount (aggregateStep items (aggregateStep [c6item] none)) :=
  c6_reachable_bounds _
    (Reachable.step [c6item] none (by simp [validItem, c6item]) Reachable.init)

/-- C5: an aggregation trigger delivered when no row of the video has a
processing timestamp strictly greater than the stored checkpoint leaves
the metadata row — score, count and checkpoint — unchanged. -/
theorem c5_redelivery_noop (items : List CommentItem) (md : Metadata)
    (h : ∀ c ∈ items, ¬ md.last_updated_at < c.processed_at) :
    aggregateStep items (some md) = some md := by
  apply aggregateStep_of_empty
  simp only [metaFields, fetch_sentiment_scores, List.isEmpty_iff]
  rw [List.filter_eq_nil_iff]
  intro c hc
  simpa using h c hc

theorem c5_redelivery_noop_witness :
    aggregateStep [⟨"old", "gina", "2023-12-31T00:00:00Z", 5, none⟩]
      (some ⟨70, 20, 10⟩) = some ⟨70, 20, 10⟩ :=
  c5_redelivery_noop _ _ (by decide)

lemma aggPut_single (c : CommentItem) (m : Option Metadata)
    (h : (metaFields m).2.2 < c.processed_at) :
    aggregatePut [c] m = some
      ⟨(calculate_overall_score (metaFields m).1 (metaFields m).2.1 [c]).1,
        (metaFields m).2.1 + 1, c.processed_at⟩ := by
  have hf : fetch_sentiment_scores [c] (metaFields m).2.2 = [c] := by
    simp [fetch_sentiment_scores, h]
  simp only [aggregatePut, hf, List.isEmpty_cons, if_neg, Bool.false_eq_true,
    not_false_eq_true, if_false, latest_timestamp, List.map_nil, List.foldl_nil,
    calc_count, List.length_singleton]

lemma aggregateStep_of_put (items : List CommentItem) (m : Option Metadata)
    (md : Metadata) (h : aggregatePut items m = some md) :
    aggregateStep items m = some md := by
  simp only [aggregateStep, h]

lemma calc_eval_scenarioC (c : CommentItem)
    (hc : c.sentiment_score = some ⟨1, 0, 0, 0⟩) :
    calculate_overall_score 70 20 [c] = (71, 21) := by
  have hn : itemNorm c = 1 := by
    simp [itemNorm, scoreP, scoreN, hc, positive_weight_factor]
  have h : calculate_overall_score 70 20 [c] = (roundHalfEven (500 / 7), 21) := by
    simp only [calculate_overall_score, new_avg, hn, normalized_existing,
      new_avg_adjusted, combinedOf, positive_weight_factor, boost_delta,
      List.map, List.sum_cons, List.sum_nil, List.length]
    norm_num [max_def, min_def]
  rw [h, roundHalfEven_eq_of (500 / 7) 71 (by norm_num) (by norm_num)]

lemma calc_eval_70_20_unenriched (c : CommentItem) (hc : c.sentiment_score = none) :
    calculate_overall_score 70 20 [c] = (69, 21) := by
  have h : calculate_overall_score 70 20 [c] = (roundHalfEven (1450 / 21), 21) := by
    simp only [calculate_overall_score, new_avg, itemNorm_of_none c hc,
      normalized_existing, new_avg_adjusted, combinedOf, boost_delta,
      List.map, List.sum_cons, List.sum_nil, List.length]
    norm_num
  rw [h, roundHalfEven_eq_of (1450 / 21) 69 (by norm_num) (by norm_num)]

lemma calc_eval_neutral_unenriched (es : ℚ) (ec : ℕ) (c : CommentItem)
    (hc : c.sentiment_score = none) (hne : normalized_existing es ec = 0) :
    calculate_overall_score es ec [c] = (50, ec + 1) := by
  have h : calculate_overall_score es ec [c] = (roundHalfEven 50, ec + 1) := by
    simp only [calculate_overall_score, new_avg, itemNorm_of_none c hc, hne,
      new_avg_adjusted, combinedOf, boost_delta,
      List.map, List.sum_cons, List.sum_nil, List.length]
    norm_num
  rw [h, roundHalfEven_eq_of 50 50 (by norm_num) (by norm_num)]

/-- C1 counterexample: on the Scenario C input — existing score 70 over
twenty comments, one new item with magnitudes (1.0, 0.0) — the scoring
code returns 71, not the 68 the Bayesian-smoothed rule of the
specification prescribes. -/
theorem c1_counterexample :
    (calculate_overall_score 70 20 [c1item]).1 = 71 ∧ (71 : ℤ) ≠ 68 := by
  constructor
  · rw [calc_eval_scenarioC c1item rfl]
  · decide

/-- C1 amended: the aggregation code folds new items by the
positive-weighted boost rule, not a Bayesian prior: each item is
normalized as (1.25·P − N)/(1.25·P + N) when 1.25·P + N is positive (else
0); a positive new average gains a fixed 0.2 boost capped at 1; the
existing normalized score and the boosted average are combined by a plain
count-weighted mean with no prior pseudo-count; a positive new average
also floors the combination at the existing normalized score; the result
is mapped back by round((x + 1) / 2 × 100).  On the Scenario C input the
updated row is score 71, count 21, checkpoint advanced to the item's
processing time. -/
theorem c1_amended_boost_rule :
    aggregateStep [c1item] (some c1prior) = some ⟨71, 21, 11⟩ := by
  apply aggregateStep_of_put
  have h := aggPut_single c1item (some c1prior) (by decide)
  simp only [metaFields, c1prior] at h ⊢
  rw [h]
  have e1 : calculate_overall_score (((70 : ℤ) : ℚ)) 20 [c1item] = (71, 21) := by
    norm_num [calc_eval_scenarioC c1item rfl]
  rw [e1]
  rfl

/-- C7 counterexample: a row whose classification failed permanently (the
enrichment step produced nothing for it, leaving it unenriched) is still
fetched and folded: starting from score 70, count 20, checkpoint 10, the
fold over exactly that row changes all three fields — score 69, count 21,
checkpoint 11. -/
theorem c7_counterexample :
    process_record [ClassifierOutcome.textTooLong] c7item = none ∧
    aggregateStep [c7item] (some c7prior) = some ⟨69, 21, 11⟩ ∧
    ((69 : ℤ) ≠ 70 ∧ (21 : ℕ) ≠ 20 ∧ (11 : ℕ) ≠ 10) := by
  refine ⟨rfl, ?_, by decide⟩
  apply aggregateStep_of_put
  have h := aggPut_single c7item (some c7prior) (by decide)
  simp only [metaFields, c7prior] at h ⊢
  rw [h]
  have e7 : calculate_overall_score (((70 : ℤ) : ℚ)) 20 [c7item] = (69, 21) := by
    norm_num [calc_eval_70_20_unenriched c7item rfl]
  rw [e7]
  rfl

/-- C7 amended: a permanently failed item is left unenriched, but it is
not excluded from aggregation: its normalized sentiment defaults to 0,
and any aggregation run whose checkpoint is below the item's
ingestion-stamped processing time folds it, incrementing the comment
count and advancing the checkpoint to its processing time. -/
theorem c7_amended_neutral_fold (c : CommentItem) (hc : c.sentiment_score = none)
    (md : Metadata) (h : md.last_updated_at < c.processed_at) :
    itemNorm c = 0 ∧
    aggCount (aggregateStep [c] (some md)) = md.comment_count + 1 ∧
    lastOf (aggregateStep [c] (some md)) = c.processed_at := by
  have hput := aggPut_single c (some md) (by simpa [metaFields] using h)
  have hstep := aggregateStep_of_put _ _ _ hput
  rw [hstep]
  exact ⟨itemNorm_of_none c hc, by simp [aggCount, metaFields], by simp [lastOf]⟩

theorem c7_amended_neutral_fold_witness :
    itemNorm c7item = 0 ∧
    aggCount (aggregateStep [c7item] (some c7prior)) = c7prior.comment_count + 1 ∧
    lastOf (aggregateStep [c7item] (some c7prior)) = c7item.processed_at :=
  c7_amended_neutral_fold c7item rfl c7prior (by decide)

lemma aggPut_c2_run1 : aggregatePut [c2item1] (some c2prior) = some ⟨69, 21, 11⟩ := by
  have h := aggPut_single c2item1 (some c2prior) (by decide)
  simp only [metaFields, c2prior] at h ⊢
  rw [h]
  have e : calculate_overall_score (((70 : ℤ) : ℚ)) 20 [c2item1] = (69, 21) := by
    norm_num [calc_eval_70_20_unenriched c2item1 rfl]
  rw [e]
  rfl

lemma aggPut_c2_run2 : aggregatePut [c2item2] (some c2prior) = some ⟨69, 21, 12⟩ := by
  have h := aggPut_single c2item2 (some c2prior) (by decide)
  simp only [metaFields, c2prior] at h ⊢
  rw [h]
  have e : calculate_overall_score (((70 : ℤ) : ℚ)) 20 [c2item2] = (69, 21) := by
    norm_num [calc_eval_70_20_unenriched c2item2 rfl]
  rw [e]
  rfl

/-- C2 is violated by the code: the write-back is an unconditional put,
so under the interleaving read1, read2, write1, write2 of two concurrent
aggregation runs over disjoint single-item sets, the second write
overwrites the first and the final comment count is 21, not the prior
count plus both new-item counts (22) — the first update is lost. -/
theorem c2_lost_update :
    (concExec [c2item1] [c2item2] [Ev.read1, Ev.read2, Ev.write1, Ev.write2]
        ⟨some c2prior, none, none⟩).db = some ⟨69, 21, 12⟩ ∧
    aggCount (concExec [c2item1] [c2item2] [Ev.read1, Ev.read2, Ev.write1, Ev.write2]
        ⟨some c2prior, none, none⟩).db ≠ c2prior.comment_count + 1 + 1 := by
  have hexec : concExec [c2item1] [c2item2] [Ev.read1, Ev.read2, Ev.write1, Ev.write2]
      ⟨some c2prior, none, none⟩ =
      ⟨some ⟨69, 21, 12⟩, some (some c2prior), some (some c2prior)⟩ := by
    simp only [concExec, List.foldl, concStep, aggPut_c2_run1, aggPut_c2_run2]
  rw [hexec]
  exact ⟨rfl, by decide⟩

/-- C3 is violated by the code: the handler stores the continuation
token returned by the source before sending the batch to the queue, so
when the send fails (status 500) the stored token has already advanced
from its prior value. -/
theorem c3_token_advanced_on_failure :
    lambda1_handler (some "pageA") none (fun _ => some ([], some "pageB")) false
      = (some "pageB", 500) ∧
    (some "pageB" : Option String) ≠ some "pageA" :=
  ⟨rfl, by decide⟩

/-- C4 is violated by the code: re-ingesting the identical batch at a
later time overwrites the rows with a fresh processing timestamp, so the
store contents differ, and an aggregation run after the second ingestion
folds the same comment again — the count rises from 1 to 2 for a batch
of one comment submitted twice. -/
theorem c4_reingestion_not_idempotent :
    c4s2 ≠ c4s1 ∧
    aggregateStep (rowsFor c4s1 "vid") none = some ⟨50, 1, 1⟩ ∧
    aggregateStep (rowsFor c4s2 "vid") (some ⟨50, 1, 1⟩) = some ⟨50, 2, 2⟩ ∧
    (2 : ℕ) ≠ 1 := by
  have hr1 : rowsFor c4s1 "vid" = [storedItemOf c4comment 1] := by decide
  have hr2 : rowsFor c4s2 "vid" = [storedItemOf c4comment 2] := by decide
  refine ⟨by decide, ?_, ?_, by decide⟩
  · rw [hr1]
    apply aggregateStep_of_put
    have h := aggPut_single (storedItemOf c4comment 1) none (by decide)
    simp only [metaFields] at h
    rw [h]
    have e : calculate_overall_score 0 0 [storedItemOf c4comment 1] = (50, 1) := by
      apply calc_eval_neutral_unenriched
      · rfl
      · simp [normalized_existing]
    rw [e]
    rfl
  · rw [hr2]
    apply aggregateStep_of_put
    have h := aggPut_single (storedItemOf c4comment 2) (some ⟨50, 1, 1⟩) (by decide)
    simp only [metaFields] at h
    rw [h]
    have e : calculate_overall_score (((50 : ℤ) : ℚ)) 1 [storedItemOf c4comment 2]
        = (50, 2) := by
      apply calc_eval_neutral_unenriched
      · rfl
      · simp only [normalized_existing]
        norm_num
    rw [e]
    rfl

/-- C8 is violated by the code: every throttling outcome triggers
another classifier call with no retry counter, so the number of calls
equals the number of consecutive throttles plus one and admits no upper
bound — a permanently throttled classifier suspends the call forever. -/
theorem c8_unbounded_retry :
    (∀ n : ℕ, classifier_calls
        (List.replicate n ClassifierOutcome.throttled ++
          [ClassifierOutcome.success "POSITIVE" c8score]) = n + 1) ∧
    ¬ ∃ B : ℕ, ∀ outcomes : List ClassifierOutcome, classifier_calls outcomes ≤ B := by
  have hrep : ∀ (n : ℕ) (rest : List ClassifierOutcome),
      classifier_calls (List.replicate n ClassifierOutcome.throttled ++ rest)
        = n + classifier_calls rest := by
    intro n
    induction n with
    | zero => intro rest; simp
    | succ k ih =>
        intro rest
        simp only [List.replicate_succ, List.cons_append, classifier_calls]
        show 1 + classifier_calls (List.replicate k ClassifierOutcome.throttled ++ rest)
          = k + 1 + classifier_calls rest
        rw [ih rest]
        omega
  constructor
  · intro n
    rw [hrep]
    simp [classifier_calls]
  · rintro ⟨B, hB⟩
    have h := hB (List.replicate (B + 1) ClassifierOutcome.throttled)
    have h2 : classifier_calls (List.replicate (B + 1) ClassifierOutcome.throttled)
        = B + 1 := by
      have h3 := hrep (B + 1) []
      simpa [classifier_calls] using h3
    omega

/-- C9 counterexample: the dedup key hashes only the video id and the
published timestamp, so two distinct comments on the same video with the
same published timestamp but different texts get the same key, and after
ingesting both the store holds a single row — the second comment's —
rather than two separate items. -/
theorem c9_counterexample :
    dedupKey "vid" c9c1 = dedupKey "vid" c9c2 ∧
    c9c1.text ≠ c9c2.text ∧
    processBatch [] "vid" [c9c1, c9c2] 7 =
      [(("vid", dedupKey "vid" c9c1), storedItemOf c9c2 7)] :=
  ⟨rfl, by decide, by decide⟩

/-- C9 amended: the dedup key is the stable hash of the entity id and
the published timestamp only — the text is not part of the key — so any
two comments on the same video sharing a published timestamp map to the
same dedup key (and an ingest of both stores a single row, the later one
overwriting the earlier). -/
theorem c9_amended_key_ignores_text (video_id : String) (c₁ c₂ : RawComment)
    (h : c₁.published_at = c₂.published_at) :
    dedupKey video_id c₁ = dedupKey video_id c₂ := by
  simp [dedupKey, h]

theorem c9_amended_key_ignores_text_witness :
    dedupKey "vid" c9c1 = dedupKey "vid" c9c2 :=
  c9_amended_key_ignores_text "vid" c9c1 c9c2 rfl

/-- C10: whenever the event carries a Records list the ingestion handler
returns status 200, no matter how many messages fail: a failing message
merely makes process_message return False with the store untouched, and
the handler ignores that flag. -/
theorem c10_handler_masks_failures :
    (∀ (records : List SqsMessage) (s : Store) (now : ℕ),
        (lambda2_handler (some records) s now).2 = 200) ∧
    (∀ (s : Store) (now : ℕ),
        process_message s now SqsMessage.malformed = (s, false)) :=
  ⟨fun _ _ _ => rfl, fun _ _ => rfl⟩
